import Mathlib

/-!
# Transaction-processor core: shallow embedding and verification

A shallow embedding of the transaction-processing core of the
`transaction-processor` service: the idempotent apply algorithm
(`TransactionServiceImpl.ProcessTransaction`), the cancellation sweep
(`CancellationServiceImpl.ProcessOddRecordCancellation`), and the store
operations they use (the PostgreSQL repository layer), together with
theorems about the spec's claims.

Monetary values (`decimal.Decimal` in the source, arbitrary-precision
decimals) are modelled as rationals.  The relational store is modelled as
lists of user rows and transaction rows plus the id sequence; each atomic
unit (`DBManager.WithTransaction`) is a function that either returns the
committed store or an error, in which case the pre-unit store is kept
(rollback).  Timestamps are not modelled; the nullable `cancelled_at`
column is modelled as a flag recording whether it has been set.
-/

namespace TxProc

/-- `model.State`: the direction of a transaction (`win` = increase,
`lost` = decrease). -/
inductive State where
  | win
  | lost
deriving DecidableEq, Repr

/-- `model.SourceType`: the submitting channel. -/
inductive SourceType where
  | game
  | server
  | payment
deriving DecidableEq, Repr

/-- `model.TransactionStatus`: lifecycle state of a ledger record
(`processed` = applied, `cancelled` = reversed). -/
inductive TransactionStatus where
  | processed
  | cancelled
deriving DecidableEq, Repr

/-- `model.ParseState`: accepts exactly the strings "win" and "lost". -/
def ParseState (s : String) : Option State :=
  if s = "win" then some .win
  else if s = "lost" then some .lost
  else none

/-- `model.User`: a user row (timestamps omitted). -/
structure User where
  id : Int
  balance : ℚ
  version : Nat
deriving DecidableEq, Repr

/-- `model.Transaction`: a ledger record row.  `cancelledAt` models
whether the nullable `cancelled_at` timestamp has been set. -/
structure Transaction where
  id : Nat
  transactionID : String
  userID : Int
  sourceType : SourceType
  state : State
  amount : ℚ
  status : TransactionStatus
  cancelledAt : Bool
deriving DecidableEq, Repr

/-- The committed state of the relational store: the `users` and
`transactions` relations, and the id sequence for `transactions`. -/
structure Store where
  users : List User
  transactions : List Transaction
  nextId : Nat
deriving DecidableEq, Repr

/-- The sentinel errors of `model` (part of the error taxonomy), plus the
service-private `errDuplicateInsertRace` sentinel used to signal the
insert race out of the aborted unit. -/
inductive ModelError where
  | insufficientBalance
  | duplicateTransaction
  | invalidState
  | invalidAmount
  | invalidSourceType
  | userNotFound
  | transactionNotFound
  | duplicateInsertRace
deriving DecidableEq, Repr

/-- `model.TransactionRequest`: the incoming event payload. -/
structure TransactionRequest where
  state : String
  amount : String
  transactionID : String
deriving DecidableEq, Repr

/-- `model.TransactionResponse` (the `Message` field, which is purely
informational text, is omitted; the code formats `balance` with
`StringFixed(2)`, modelled here as the rational itself). -/
structure TransactionResponse where
  status : String
  balance : ℚ
deriving DecidableEq, Repr

/-! ## Repository operations (internal/repository/postgres) -/

/-- `TransactionRepositoryImpl.GetTransaction`: lookup by
`transaction_id` (`none` models `ErrTransactionNotFound`). -/
def getTransaction (s : Store) (txID : String) : Option Transaction :=
  s.transactions.find? (fun t => t.transactionID == txID)

/-- Lookup of a user row by id (`SELECT ... FROM users WHERE id = $1`). -/
def getUser (s : Store) (uid : Int) : Option User :=
  s.users.find? (fun u => u.id == uid)

/-- `UserRepositoryImpl.GetBalance`: read the current balance. -/
def getBalance (s : Store) (uid : Int) : Except ModelError ℚ :=
  match getUser s uid with
  | none => .error .userNotFound
  | some u => .ok u.balance

/-- `UserRepositoryImpl.GetUserForUpdate`: read the user row under the
row-level exclusive lock. -/
def getUserForUpdate (s : Store) (uid : Int) : Except ModelError User :=
  match getUser s uid with
  | none => .error .userNotFound
  | some u => .ok u

/-- The row update performed by `UserRepositoryImpl.UpdateBalance` on the
row matching `uid`: set the balance and bump the version. -/
def updFn (uid : Int) (b : ℚ) (u : User) : User :=
  if u.id == uid then { u with balance := b, version := u.version + 1 } else u

/-- `UserRepositoryImpl.UpdateBalance`: write the balance and bump the
version.  The store-level check constraint `balance_non_negative`
surfaces as `ErrInsufficientBalance`; zero rows affected surfaces as
`ErrUserNotFound`. -/
def updateBalance (s : Store) (uid : Int) (b : ℚ) : Except ModelError Store :=
  if (getUser s uid).isNone then .error .userNotFound
  else if b < 0 then .error .insufficientBalance
  else .ok { s with users := s.users.map (updFn uid b) }

/-- `TransactionRepositoryImpl.InsertTransaction`: insert a record; the
store assigns the sequence id.  A row with the same `transaction_id`
violates the uniqueness constraint, surfaced as
`ErrDuplicateTransaction`. -/
def insertTransaction (s : Store) (t : Transaction) :
    Except ModelError (Store × Transaction) :=
  if (getTransaction s t.transactionID).isSome then .error .duplicateTransaction
  else
    let inserted := { t with id := s.nextId, cancelledAt := false }
    .ok ({ s with
            transactions := s.transactions ++ [inserted],
            nextId := s.nextId + 1 },
         inserted)

/-- `TransactionRepositoryImpl.GetLatestOddProcessedTransactions`:
`WHERE id % 2 = 1 AND status = 'processed' ORDER BY id DESC LIMIT $1`. -/
def getLatestOddProcessedTransactions (s : Store) (limit : Nat) :
    List Transaction :=
  ((s.transactions.filter
      (fun t => t.id % 2 == 1 && t.status == .processed)).mergeSort
    (fun a b => decide (b.id ≤ a.id))).take limit

/-- The row update performed by `CancelTransactionIfProcessed` on the
row matching `cid` while still `processed`: flip the status and set the
`cancelled_at` timestamp. -/
def cancelFn (cid : Nat) (t : Transaction) : Transaction :=
  if t.id == cid && t.status == .processed then
    { t with status := .cancelled, cancelledAt := true }
  else t

/-- `TransactionRepositoryImpl.CancelTransactionIfProcessed`:
`UPDATE ... SET status = 'cancelled', cancelled_at = NOW() WHERE id = $2
AND status = 'processed'`; returns whether exactly one row was
affected. -/
def cancelTransactionIfProcessed (s : Store) (id : Nat) : Store × Bool :=
  match s.transactions.find? (fun t => t.id == id && t.status == .processed) with
  | none => (s, false)
  | some _ =>
      ({ s with transactions := s.transactions.map (cancelFn id) }, true)

/-- `TransactionRepositoryImpl.LockTransactionForCancellation`:
`SELECT id FROM transactions WHERE id = $1 AND status = 'processed'
FOR UPDATE SKIP LOCKED`; in the serialized model the probe succeeds iff
such a row exists. -/
def lockTransactionForCancellation (s : Store) (id : Nat) : Bool :=
  (s.transactions.find? (fun t => t.id == id && t.status == .processed)).isSome

/-! ## Amount parsing -/

/-- A nonempty all-digit character sequence read as a natural number
(helper for `decimalFromString`). -/
def parseNatDigits (cs : List Char) : Option Nat :=
  if cs.isEmpty then none
  else cs.foldl
    (fun acc c =>
      acc.bind (fun n => if c.isDigit then some (n * 10 + (c.toNat - 48)) else none))
    (some 0)

/-- Split a character sequence into its maximal dot-free segments
(helper for `decimalFromString`). -/
def splitOnDot : List Char → List (List Char)
  | [] => [[]]
  | c :: cs =>
      match splitOnDot cs with
      | [] => []
      | seg :: rest => if c = '.' then [] :: seg :: rest else (c :: seg) :: rest

/-- Modelled from the external `shopspring/decimal` dependency:
`decimal.NewFromString` restricted to the plain decimal grammar — an
optional sign, integer digits, and an optional fractional part (exponent
and other exotic forms the library also accepts are not modelled). -/
def decimalFromString (s : String) : Option ℚ :=
  let neg := s.data.head? == some '-'
  let body :=
    match s.data with
    | '-' :: r => r
    | '+' :: r => r
    | r => r
  let signed : ℚ → ℚ := fun q => if neg then -q else q
  match splitOnDot body with
  | [intPart] => (parseNatDigits intPart).map (fun n => signed n)
  | [intPart, fracPart] =>
      match parseNatDigits fracPart with
      | none => none
      | some f =>
          let fq : ℚ := (f : ℚ) / ((10 : ℚ) ^ fracPart.length)
          if intPart.isEmpty then some (signed fq)
          else (parseNatDigits intPart).map (fun n => signed ((n : ℚ) + fq))
  | _ => none

/-! ## TransactionServiceImpl.ProcessTransaction -/

/-- The body of the atomic unit of `ProcessTransaction` (the closure
passed to `dbManager.WithTransaction`).  Under READ COMMITTED each
statement sees the latest committed state, so the unit is parameterized
by `sLook`, the committed store its step-1 lookup sees, and `s`, the
committed store the remaining statements run against; they coincide
unless a concurrent `Apply` committed between the lookup and the locked
statements.  An error return models the unit aborting (rollback). -/
def processTransactionUnit (req : TransactionRequest) (sourceType : SourceType)
    (userID : Int) (state : State) (amount : ℚ) (sLook s : Store) :
    Except ModelError (Store × TransactionResponse) :=
  match getTransaction sLook req.transactionID with
  | some existingTrans =>
      if existingTrans.userID ≠ userID then
        .error .duplicateTransaction
      else
        match getBalance s userID with
        | .error e => .error e
        | .ok balance => .ok (s, ⟨"already_processed", balance⟩)
  | none =>
      match getUserForUpdate s userID with
      | .error e => .error e
      | .ok user =>
          let newBalance :=
            match state with
            | .win => user.balance + amount
            | .lost => user.balance - amount
          if newBalance < 0 then .error .insufficientBalance
          else
            match updateBalance s userID newBalance with
            | .error e => .error e
            | .ok s1 =>
                match insertTransaction s1
                    ⟨0, req.transactionID, userID, sourceType, state, amount,
                     .processed, false⟩ with
                | .error .duplicateTransaction => .error .duplicateInsertRace
                | .error e => .error e
                | .ok (s2, _) => .ok (s2, ⟨"success", newBalance⟩)

/-- `TransactionServiceImpl.ProcessTransaction`: validation, the atomic
unit, and the post-rollback duplicate handling.  `sLook` is the
committed store the unit's step-1 lookup sees and `s` the committed
store everything else (including the post-rollback fresh reads) runs
against.  On an error the returned value carries no store: the caller
keeps the pre-call store (the unit rolled back). -/
def processTransactionWith (req : TransactionRequest) (sourceType : SourceType)
    (userID : Int) (sLook s : Store) :
    Except ModelError (Store × TransactionResponse) :=
  match decimalFromString req.amount with
  | none => .error .invalidAmount
  | some amount =>
      if amount ≤ 0 then .error .invalidAmount
      else
        match ParseState req.state with
        | none => .error .invalidState
        | some state =>
            match processTransactionUnit req sourceType userID state amount sLook s with
            | .ok r => .ok r
            | .error .duplicateInsertRace =>
                match getTransaction s req.transactionID with
                | none => .error .transactionNotFound
                | some existing =>
                    if existing.userID ≠ userID then
                      .error .duplicateTransaction
                    else
                      match getBalance s userID with
                      | .error e => .error e
                      | .ok balance => .ok (s, ⟨"already_processed", balance⟩)
            | .error e => .error e

/-- `ProcessTransaction` in the absence of a concurrent commit inside
the unit: every statement sees the same committed store. -/
def processTransaction (req : TransactionRequest) (sourceType : SourceType)
    (userID : Int) (s : Store) : Except ModelError (Store × TransactionResponse) :=
  processTransactionWith req sourceType userID s s

/-! ## CancellationServiceImpl.ProcessOddRecordCancellation -/

/-- One candidate's atomic unit inside the sweep loop: the skip-locked
probe, the user lock, the reversal arithmetic, the negative-balance
refusal, the balance write and the conditional status update.  Returns
the committed store (the input store when the unit rolled back or
skipped) and whether the candidate was counted as cancelled.  A unit
error is caught by the loop and treated as the same commit-nothing
outcome, so it is folded into the `false` result. -/
def cancelOne (s : Store) (trans : Transaction) : Store × Bool :=
  if lockTransactionForCancellation s trans.id then
    match getUserForUpdate s trans.userID with
    | .error _ => (s, false)
    | .ok user =>
        let newBalance :=
          match trans.state with
          | .win => user.balance - trans.amount
          | .lost => user.balance + trans.amount
        if newBalance < 0 then (s, false)
        else
          match updateBalance s trans.userID newBalance with
          | .error _ => (s, false)
          | .ok s1 =>
              let r := cancelTransactionIfProcessed s1 trans.id
              (r.1, r.2)
  else (s, false)

/-- `ProcessOddRecordCancellation` (one `RunOnce` of the sweeper,
context cancellation not modelled): fetch up to 10 candidates, then
process each in its own atomic unit, counting cancellations. -/
def processOddRecordCancellation (s : Store) : Store × Nat :=
  (getLatestOddProcessedTransactions s 10).foldl
    (fun acc trans =>
      let r := cancelOne acc.1 trans
      (r.1, if r.2 then acc.2 + 1 else acc.2))
    (s, 0)

/-! ## Reachability -/

/-- The operations that mutate the store: one `Apply` call or one sweep
run. -/
inductive Op where
  | apply (req : TransactionRequest) (sourceType : SourceType) (userID : Int)
  | sweep

/-- Execute one operation against the committed store; a failed `Apply`
leaves the store unchanged (its unit rolled back). -/
def execOp (s : Store) : Op → Store
  | .apply req sourceType userID =>
      match processTransaction req sourceType userID s with
      | .ok r => r.1
      | .error _ => s
  | .sweep => (processOddRecordCancellation s).1

/-- Run a sequence of operations from an initial committed store. -/
def run (s : Store) (ops : List Op) : Store := ops.foldl execOp s

/-! ## Ledger/balance bookkeeping -/

/-- The contribution of one record to an owner's ledger sum, with
reversed (cancelled) records contributing nothing: their effect on the
balance has been undone. -/
def signedAmount (t : Transaction) : ℚ :=
  if t.status = .processed then
    match t.state with
    | .win => t.amount
    | .lost => -t.amount
  else 0

/-- Sum of `signedAmount` over an owner's records. -/
def ownerSum (uid : Int) (ts : List Transaction) : ℚ :=
  (ts.map (fun t => if t.userID = uid then signedAmount t else 0)).sum

/-- The ledger sum exactly as the spec's round-trip invariant sentence
reads: increase positive, decrease negative, and a reversed record
counted with the opposite sign. -/
def signedAmountSpec (t : Transaction) : ℚ :=
  match t.status, t.state with
  | .processed, .win => t.amount
  | .processed, .lost => -t.amount
  | .cancelled, .win => -t.amount
  | .cancelled, .lost => t.amount

/-- Sum of `signedAmountSpec` over an owner's records. -/
def ownerSumSpec (uid : Int) (ts : List Transaction) : ℚ :=
  (ts.map (fun t => if t.userID = uid then signedAmountSpec t else 0)).sum

/-! ## Derived descriptions of committed stores -/

/-- The signed effect of an event on the balance, as computed in step 3
of the unit (`switch state`). -/
def newBalanceOf (state : State) (balance amount : ℚ) : ℚ :=
  match state with
  | .win => balance + amount
  | .lost => balance - amount

/-- The store committed by a successful fresh apply: balance written,
record appended, sequence advanced. -/
def appliedStore (key : String) (sourceType : SourceType) (userID : Int)
    (state : State) (amount nb : ℚ) (s : Store) : Store :=
  { users := s.users.map (updFn userID nb),
    transactions := s.transactions ++
      [⟨s.nextId, key, userID, sourceType, state, amount, .processed, false⟩],
    nextId := s.nextId + 1 }

/-- The reversal computed in the sweep's per-candidate unit (`switch
trans.State`): a win (increase) is reversed by subtracting its amount, a
lost (decrease) by adding it back. -/
def reverseBalanceOf (state : State) (balance amount : ℚ) : ℚ :=
  match state with
  | .win => balance - amount
  | .lost => balance + amount

/-- The store committed by a successful per-candidate reversal unit:
reversed balance written, matching record rows flipped to `cancelled`. -/
def cancelledStore (s : Store) (trans : Transaction) (nb : ℚ) : Store :=
  { users := s.users.map (updFn trans.userID nb),
    transactions := s.transactions.map (cancelFn trans.id),
    nextId := s.nextId }

/-- `n` sequential `Apply` calls with the same request and caller — the
serialization of `n` concurrent calls, each call's atomic unit seeing
the store committed by the previous ones.  Collects the successful
responses in order together with the final committed store (a failed
call leaves the store unchanged and contributes no response). -/
def applyMany (req : TransactionRequest) (src : SourceType) (uid : Int) :
    Nat → Store → List TransactionResponse × Store
  | 0, s => ([], s)
  | n + 1, s =>
      match processTransaction req src uid s with
      | .ok (s', r) =>
          let rest := applyMany req src uid n s'
          (r :: rest.1, rest.2)
      | .error _ =>
          let rest := applyMany req src uid n s
          (rest.1, rest.2)

/-! ## The round-trip invariant -/

/-- The per-account relation between a committed user row `u` and the
same account's initial row `u₀`: the id is stable, the balance is
non-negative, and the signed sum of the account's still-`processed`
records explains the balance change since the initial state. -/
def UserRel (ts : List Transaction) (u u₀ : User) : Prop :=
  u.id = u₀.id ∧ 0 ≤ u.balance ∧ ownerSum u.id ts = u.balance - u₀.balance

/-- The inductive invariant carried through every committed state `s`
reachable from the initial state `s₀`: the account rows are in
`UserRel` with their initial rows, and the ledger's ids are unique and
below the sequence value. -/
structure Inv (s₀ s : Store) : Prop where
  users_rel : List.Forall₂ (UserRel s.transactions) s.users s₀.users
  tx_nodup : (s.transactions.map Transaction.id).Nodup
  tx_lt : ∀ t ∈ s.transactions, t.id < s.nextId

/-- The pre-read sweep candidate `trans` agrees with the store on the
immutable columns of the row with its id (the sweep's per-candidate unit
re-checks only the status, relying on records' immutability for the
rest). -/
def Agrees (s : Store) (trans : Transaction) : Prop :=
  ∀ r ∈ s.transactions, r.id = trans.id →
    r.userID = trans.userID ∧ r.state = trans.state ∧ r.amount = trans.amount

/-! ## Basic lemmas about the store operations -/

theorem updFn_id (uid : Int) (b : ℚ) (u : User) : (updFn uid b u).id = u.id := by
  unfold updFn; split <;> rfl

theorem cancelFn_id (cid : Nat) (t : Transaction) : (cancelFn cid t).id = t.id := by
  unfold cancelFn; split <;> rfl

theorem cancelFn_userID (cid : Nat) (t : Transaction) :
    (cancelFn cid t).userID = t.userID := by
  unfold cancelFn; split <;> rfl

theorem cancelFn_state (cid : Nat) (t : Transaction) :
    (cancelFn cid t).state = t.state := by
  unfold cancelFn; split <;> rfl

theorem cancelFn_amount (cid : Nat) (t : Transaction) :
    (cancelFn cid t).amount = t.amount := by
  unfold cancelFn; split <;> rfl

theorem getUser_map_updFn (users : List User) (uid : Int) (b : ℚ) (v : Int) :
    (users.map (updFn uid b)).find? (fun u => u.id == v)
      = (users.find? (fun u => u.id == v)).map (updFn uid b) := by
  rw [List.find?_map]
  have hp : ((fun u : User => u.id == v) ∘ updFn uid b) = fun u : User => u.id == v := by
    funext u
    simp [Function.comp, updFn_id]
  rw [hp]

theorem getUser_eq_of_users {s s' : Store} (h : s'.users = s.users) (v : Int) :
    getUser s' v = getUser s v := by
  unfold getUser; rw [h]

theorem getTransaction_eq_of_tx {s s' : Store} (h : s'.transactions = s.transactions)
    (k : String) : getTransaction s' k = getTransaction s k := by
  unfold getTransaction; rw [h]

theorem getUserForUpdate_eq (s : Store) (uid : Int) :
    getUserForUpdate s uid =
      match getUser s uid with
      | none => .error .userNotFound
      | some u => .ok u := rfl

theorem getUser_id {s : Store} {uid : Int} {u : User} (h : getUser s uid = some u) :
    u.id = uid := by
  have := List.find?_some h
  simpa using this

theorem getUser_mem {s : Store} {uid : Int} {u : User} (h : getUser s uid = some u) :
    u ∈ s.users :=
  List.mem_of_find?_eq_some h

theorem updateBalance_ok_of {s : Store} {uid : Int} {u : User} (b : ℚ)
    (hu : getUser s uid = some u) (hb : 0 ≤ b) :
    updateBalance s uid b = .ok { s with users := s.users.map (updFn uid b) } := by
  unfold updateBalance
  rw [hu]
  simp [not_lt.mpr hb]

theorem updateBalance_ok_inv {s : Store} {uid : Int} {b : ℚ} {s' : Store}
    (h : updateBalance s uid b = .ok s') :
    0 ≤ b ∧ s' = { s with users := s.users.map (updFn uid b) } := by
  unfold updateBalance at h
  split at h
  · exact absurd h (by simp)
  · split at h
    · exact absurd h (by simp)
    · refine ⟨not_lt.mp (by assumption), ?_⟩
      exact (Except.ok.inj h).symm

theorem insertTransaction_ok_of {s : Store} {t : Transaction}
    (h : getTransaction s t.transactionID = none) :
    insertTransaction s t =
      .ok ({ s with
              transactions := s.transactions ++ [{ t with id := s.nextId, cancelledAt := false }],
              nextId := s.nextId + 1 },
           { t with id := s.nextId, cancelledAt := false }) := by
  unfold insertTransaction
  rw [h]
  rfl

theorem insertTransaction_dup {s : Store} {t : Transaction}
    (h : (getTransaction s t.transactionID).isSome) :
    insertTransaction s t = .error .duplicateTransaction := by
  unfold insertTransaction
  rw [if_pos h]

theorem getBalance_eq {s : Store} {uid : Int} {u : User} (h : getUser s uid = some u) :
    getBalance s uid = .ok u.balance := by
  unfold getBalance
  rw [h]

/-! ## Path lemmas for the apply unit -/

theorem processTransactionUnit_replay {req : TransactionRequest} {src : SourceType}
    {uid : Int} {state : State} {amount : ℚ} {sLook s : Store} {t : Transaction}
    {u : User} (ht : getTransaction sLook req.transactionID = some t)
    (howner : t.userID = uid) (hu : getUser s uid = some u) :
    processTransactionUnit req src uid state amount sLook s
      = .ok (s, ⟨"already_processed", u.balance⟩) := by
  unfold processTransactionUnit
  rw [ht]
  simp [howner, getBalance_eq hu]

theorem processTransactionUnit_mismatch {req : TransactionRequest} {src : SourceType}
    {uid : Int} {state : State} {amount : ℚ} {sLook s : Store} {t : Transaction}
    (ht : getTransaction sLook req.transactionID = some t) (howner : t.userID ≠ uid) :
    processTransactionUnit req src uid state amount sLook s
      = .error .duplicateTransaction := by
  unfold processTransactionUnit
  rw [ht]
  simp [howner]

theorem processTransactionUnit_insufficient {req : TransactionRequest} {src : SourceType}
    {uid : Int} {state : State} {amount : ℚ} {sLook s : Store} {u : User}
    (ht : getTransaction sLook req.transactionID = none)
    (hu : getUser s uid = some u)
    (hneg : newBalanceOf state u.balance amount < 0) :
    processTransactionUnit req src uid state amount sLook s
      = .error .insufficientBalance := by
  unfold processTransactionUnit
  rw [ht, getUserForUpdate_eq, hu]
  cases state <;> simp_all [newBalanceOf]

theorem processTransactionUnit_fresh {req : TransactionRequest} {src : SourceType}
    {uid : Int} {state : State} {amount : ℚ} {sLook s : Store} {u : User}
    (ht : getTransaction sLook req.transactionID = none)
    (hts : getTransaction s req.transactionID = none)
    (hu : getUser s uid = some u)
    (hnb : 0 ≤ newBalanceOf state u.balance amount) :
    processTransactionUnit req src uid state amount sLook s
      = .ok (appliedStore req.transactionID src uid state amount
               (newBalanceOf state u.balance amount) s,
             ⟨"success", newBalanceOf state u.balance amount⟩) := by
  have hupd := updateBalance_ok_of
    (newBalanceOf state u.balance amount) hu hnb
  cases state with
  | win =>
      have hins : insertTransaction
          { s with users := s.users.map (updFn uid (u.balance + amount)) }
          ⟨0, req.transactionID, uid, src, .win, amount, .processed, false⟩
          = .ok ({ users := s.users.map (updFn uid (u.balance + amount)),
                   transactions := s.transactions ++
                     [⟨s.nextId, req.transactionID, uid, src, .win, amount, .processed, false⟩],
                   nextId := s.nextId + 1 },
                 ⟨s.nextId, req.transactionID, uid, src, .win, amount, .processed, false⟩) :=
        insertTransaction_ok_of (by exact hts)
      simp only [newBalanceOf] at hnb hupd ⊢
      simp only [processTransactionUnit, ht, getUserForUpdate_eq, hu,
        if_neg (not_lt.mpr hnb), hupd, hins, appliedStore]
  | lost =>
      have hins : insertTransaction
          { s with users := s.users.map (updFn uid (u.balance - amount)) }
          ⟨0, req.transactionID, uid, src, .lost, amount, .processed, false⟩
          = .ok ({ users := s.users.map (updFn uid (u.balance - amount)),
                   transactions := s.transactions ++
                     [⟨s.nextId, req.transactionID, uid, src, .lost, amount, .processed, false⟩],
                   nextId := s.nextId + 1 },
                 ⟨s.nextId, req.transactionID, uid, src, .lost, amount, .processed, false⟩) :=
        insertTransaction_ok_of (by exact hts)
      simp only [newBalanceOf] at hnb hupd ⊢
      simp only [processTransactionUnit, ht, getUserForUpdate_eq, hu,
        if_neg (not_lt.mpr hnb), hupd, hins, appliedStore]

theorem processTransactionUnit_race {req : TransactionRequest} {src : SourceType}
    {uid : Int} {state : State} {amount : ℚ} {sLook s : Store} {u : User}
    (ht : getTransaction sLook req.transactionID = none)
    (hts : (getTransaction s req.transactionID).isSome)
    (hu : getUser s uid = some u)
    (hnb : 0 ≤ newBalanceOf state u.balance amount) :
    processTransactionUnit req src uid state amount sLook s
      = .error .duplicateInsertRace := by
  have hupd := updateBalance_ok_of
    (newBalanceOf state u.balance amount) hu hnb
  cases state with
  | win =>
      have hins : insertTransaction
          { s with users := s.users.map (updFn uid (u.balance + amount)) }
          ⟨0, req.transactionID, uid, src, .win, amount, .processed, false⟩
          = .error .duplicateTransaction :=
        insertTransaction_dup (by exact hts)
      simp only [newBalanceOf] at hnb hupd ⊢
      simp only [processTransactionUnit, ht, getUserForUpdate_eq, hu,
        if_neg (not_lt.mpr hnb), hupd, hins]
  | lost =>
      have hins : insertTransaction
          { s with users := s.users.map (updFn uid (u.balance - amount)) }
          ⟨0, req.transactionID, uid, src, .lost, amount, .processed, false⟩
          = .error .duplicateTransaction :=
        insertTransaction_dup (by exact hts)
      simp only [newBalanceOf] at hnb hupd ⊢
      simp only [processTransactionUnit, ht, getUserForUpdate_eq, hu,
        if_neg (not_lt.mpr hnb), hupd, hins]

/-! ## Wrapper lemmas for validation and race handling -/

theorem processTransactionWith_of_unit_ok {req : TransactionRequest} {src : SourceType}
    {uid : Int} {sLook s : Store} {state : State} {amount : ℚ}
    {r : Store × TransactionResponse}
    (hamt : decimalFromString req.amount = some amount) (hpos : 0 < amount)
    (hstate : ParseState req.state = some state)
    (hunit : processTransactionUnit req src uid state amount sLook s = .ok r) :
    processTransactionWith req src uid sLook s = .ok r := by
  simp only [processTransactionWith, hamt, if_neg (not_le.mpr hpos), hstate, hunit]

theorem processTransactionWith_of_unit_error {req : TransactionRequest} {src : SourceType}
    {uid : Int} {sLook s : Store} {state : State} {amount : ℚ} {e : ModelError}
    (hamt : decimalFromString req.amount = some amount) (hpos : 0 < amount)
    (hstate : ParseState req.state = some state)
    (hunit : processTransactionUnit req src uid state amount sLook s = .error e)
    (hne : e ≠ .duplicateInsertRace) :
    processTransactionWith req src uid sLook s = .error e := by
  cases e
  case duplicateInsertRace => exact absurd rfl hne
  all_goals
    simp only [processTransactionWith, hamt, if_neg (not_le.mpr hpos), hstate, hunit]

theorem processTransactionWith_race_handler {req : TransactionRequest} {src : SourceType}
    {uid : Int} {sLook s : Store} {state : State} {amount : ℚ} {t : Transaction}
    (hamt : decimalFromString req.amount = some amount) (hpos : 0 < amount)
    (hstate : ParseState req.state = some state)
    (hunit : processTransactionUnit req src uid state amount sLook s
      = .error .duplicateInsertRace)
    (ht : getTransaction s req.transactionID = some t) :
    (∀ u : User, t.userID = uid → getUser s uid = some u →
        processTransactionWith req src uid sLook s
          = .ok (s, ⟨"already_processed", u.balance⟩))
    ∧ (t.userID ≠ uid →
        processTransactionWith req src uid sLook s = .error .duplicateTransaction) := by
  constructor
  · intro u howner hu
    simp only [processTransactionWith, hamt, if_neg (not_le.mpr hpos), hstate, hunit, ht]
    simp [howner, getBalance_eq hu]
  · intro howner
    simp only [processTransactionWith, hamt, if_neg (not_le.mpr hpos), hstate, hunit, ht]
    simp [howner]

theorem getUser_after_upd {s s' : Store} {uid : Int} {b : ℚ}
    (husers : s'.users = s.users.map (updFn uid b)) (v : Int) :
    getUser s' v = (getUser s v).map (updFn uid b) := by
  unfold getUser
  rw [husers, getUser_map_updFn]

theorem updFn_self {uid : Int} {b : ℚ} {u : User} (h : u.id = uid) :
    updFn uid b u = { u with balance := b, version := u.version + 1 } := by
  simp [updFn, h]

theorem updFn_other {uid : Int} {b : ℚ} {u : User} (h : u.id ≠ uid) :
    updFn uid b u = u := by
  simp [updFn, h]

/-! ## Lemmas about sequential compositions of Apply -/

theorem processTransaction_replay_general {req : TransactionRequest} {src : SourceType}
    {uid : Int} {s : Store} {t : Transaction} {u : User} {amount : ℚ} {state : State}
    (hamt : decimalFromString req.amount = some amount) (hpos : 0 < amount)
    (hstate : ParseState req.state = some state)
    (ht : getTransaction s req.transactionID = some t) (howner : t.userID = uid)
    (hu : getUser s uid = some u) :
    processTransaction req src uid s = .ok (s, ⟨"already_processed", u.balance⟩) :=
  processTransactionWith_of_unit_ok hamt hpos hstate
    (processTransactionUnit_replay ht howner hu)

theorem getTransaction_appliedStore {s : Store} {key : String} {src : SourceType}
    {uid : Int} {state : State} {amount nb : ℚ}
    (h : getTransaction s key = none) :
    getTransaction (appliedStore key src uid state amount nb s) key
      = some ⟨s.nextId, key, uid, src, state, amount, .processed, false⟩ := by
  unfold getTransaction at h
  unfold getTransaction appliedStore
  rw [List.find?_append, h]
  simp

theorem applyMany_replay {req : TransactionRequest} {src : SourceType}
    {uid : Int} {s : Store} {t : Transaction} {u : User} {amount : ℚ} {state : State}
    (hamt : decimalFromString req.amount = some amount) (hpos : 0 < amount)
    (hstate : ParseState req.state = some state)
    (ht : getTransaction s req.transactionID = some t) (howner : t.userID = uid)
    (hu : getUser s uid = some u) :
    ∀ n, applyMany req src uid n s
      = (List.replicate n ⟨"already_processed", u.balance⟩, s) := by
  intro n
  induction n with
  | zero => rfl
  | succ m ih =>
      have hp := @processTransaction_replay_general req src uid s t u amount state hamt hpos hstate ht howner hu
      simp only [applyMany, hp, ih, List.replicate_succ]

/-! ## Claim C1: the idempotent replay path -/

/-- C1: when a ledger record with the request's idempotency key already
exists and its `owner_id` equals the caller's id, `ProcessTransaction`
returns the replay status (the spec's `already_applied`, the constant
`"already_processed"` in the code) with the account's current balance,
and the committed store is returned unchanged: no account balance and no
ledger record is mutated. -/
theorem C1_idempotent_replay (req : TransactionRequest) (src : SourceType)
    (uid : Int) (s : Store) (t : Transaction) (u : User) (amount : ℚ) (state : State)
    (hamt : decimalFromString req.amount = some amount) (hpos : 0 < amount)
    (hstate : ParseState req.state = some state)
    (ht : getTransaction s req.transactionID = some t) (howner : t.userID = uid)
    (hu : getUser s uid = some u) :
    processTransaction req src uid s = .ok (s, ⟨"already_processed", u.balance⟩) :=
  processTransactionWith_of_unit_ok hamt hpos hstate
    (processTransactionUnit_replay ht howner hu)

theorem C1_idempotent_replay_witness :
    processTransaction ⟨"win", "10.00", "K"⟩ .game 1
        ⟨[⟨1, 100, 0⟩], [⟨1, "K", 1, .game, .win, 10, .processed, false⟩], 2⟩
      = .ok (⟨[⟨1, 100, 0⟩], [⟨1, "K", 1, .game, .win, 10, .processed, false⟩], 2⟩,
             ⟨"already_processed", 100⟩) :=
  C1_idempotent_replay ⟨"win", "10.00", "K"⟩ .game 1
    ⟨[⟨1, 100, 0⟩], [⟨1, "K", 1, .game, .win, 10, .processed, false⟩], 2⟩
    ⟨1, "K", 1, .game, .win, 10, .processed, false⟩ ⟨1, 100, 0⟩ 10 .win
    (by with_unfolding_all decide) (by with_unfolding_all decide) (by with_unfolding_all decide) (by with_unfolding_all decide) (by with_unfolding_all decide) (by with_unfolding_all decide)

/-! ## Claim C5: duplicate key under a different owner -/

/-- C5: when a record with the request's idempotency key exists but its
`owner_id` differs from the caller's id, `ProcessTransaction` fails with
`ErrDuplicateTransaction` (the duplicate-key-owner-mismatch error) and
the committed store is unchanged: the existing record and the original
owner's balance are unaffected. -/
theorem C5_owner_mismatch (req : TransactionRequest) (src : SourceType)
    (uid : Int) (s : Store) (t : Transaction) (amount : ℚ) (state : State)
    (hamt : decimalFromString req.amount = some amount) (hpos : 0 < amount)
    (hstate : ParseState req.state = some state)
    (ht : getTransaction s req.transactionID = some t) (howner : t.userID ≠ uid) :
    processTransaction req src uid s = .error .duplicateTransaction ∧
    execOp s (.apply req src uid) = s := by
  have h : processTransaction req src uid s = .error .duplicateTransaction :=
    processTransactionWith_of_unit_error hamt hpos hstate
      (processTransactionUnit_mismatch ht howner) (by with_unfolding_all decide)
  exact ⟨h, by simp [execOp, h]⟩

theorem C5_owner_mismatch_witness :
    processTransaction ⟨"win", "10.00", "K"⟩ .game 2
        ⟨[⟨1, 100, 0⟩, ⟨2, 50, 0⟩], [⟨1, "K", 1, .game, .win, 10, .processed, false⟩], 2⟩
      = .error .duplicateTransaction ∧
    execOp ⟨[⟨1, 100, 0⟩, ⟨2, 50, 0⟩], [⟨1, "K", 1, .game, .win, 10, .processed, false⟩], 2⟩
        (.apply ⟨"win", "10.00", "K"⟩ .game 2)
      = ⟨[⟨1, 100, 0⟩, ⟨2, 50, 0⟩], [⟨1, "K", 1, .game, .win, 10, .processed, false⟩], 2⟩ :=
  C5_owner_mismatch ⟨"win", "10.00", "K"⟩ .game 2
    ⟨[⟨1, 100, 0⟩, ⟨2, 50, 0⟩], [⟨1, "K", 1, .game, .win, 10, .processed, false⟩], 2⟩
    ⟨1, "K", 1, .game, .win, 10, .processed, false⟩ 10 .win
    (by with_unfolding_all decide) (by with_unfolding_all decide) (by with_unfolding_all decide) (by with_unfolding_all decide) (by with_unfolding_all decide)

/-! ## Claim C10: the replay path never compares the replayed payload -/

/-- C10 (implicit): the replay path matches the existing record only by
idempotency key and owner.  For every request carrying the stored key —
with any valid direction string, any valid positive amount text and any
source, unrelated to what the stored record holds — the call returns the
replay status with the current balance and mutates nothing; the stored
payload is never compared against the request. -/
theorem C10_replay_ignores_payload (key stStr amtStr : String) (src : SourceType)
    (uid : Int) (s : Store) (t : Transaction) (u : User) (amount : ℚ) (state : State)
    (hamt : decimalFromString amtStr = some amount) (hpos : 0 < amount)
    (hstate : ParseState stStr = some state)
    (ht : getTransaction s key = some t) (howner : t.userID = uid)
    (hu : getUser s uid = some u) :
    processTransaction ⟨stStr, amtStr, key⟩ src uid s
      = .ok (s, ⟨"already_processed", u.balance⟩) :=
  processTransactionWith_of_unit_ok hamt hpos hstate
    (processTransactionUnit_replay ht howner hu)

theorem C10_replay_ignores_payload_witness :
    processTransaction ⟨"win", "7", "K"⟩ .game 1
        ⟨[⟨1, 100, 0⟩], [⟨1, "K", 1, .server, .lost, 5, .processed, false⟩], 2⟩
      = .ok (⟨[⟨1, 100, 0⟩], [⟨1, "K", 1, .server, .lost, 5, .processed, false⟩], 2⟩,
             ⟨"already_processed", 100⟩) :=
  C10_replay_ignores_payload "K" "win" "7" .game 1
    ⟨[⟨1, 100, 0⟩], [⟨1, "K", 1, .server, .lost, 5, .processed, false⟩], 2⟩
    ⟨1, "K", 1, .server, .lost, 5, .processed, false⟩ ⟨1, 100, 0⟩ 7 .win
    (by with_unfolding_all decide) (by with_unfolding_all decide) (by with_unfolding_all decide) (by with_unfolding_all decide) (by with_unfolding_all decide) (by with_unfolding_all decide)

/-! ## Claim C8: validation precedes any store access -/

/-- C8: `ProcessTransaction` validates before touching storage.  If the
amount text does not parse (the hypothesis then holds vacuously) or
parses to a non-positive value, the call fails with `ErrInvalidAmount`;
if the amount is fine but the direction string is not one of "win" and
"lost", it fails with `ErrInvalidState`.  In both cases the result is
this same error for every store `s` — the outcome does not depend on the
store — and the committed store is unchanged. -/
theorem C8_validation_before_store (req : TransactionRequest) (src : SourceType)
    (uid : Int) (s : Store) :
    ((∀ a : ℚ, decimalFromString req.amount = some a → a ≤ 0) →
        processTransaction req src uid s = .error .invalidAmount ∧
        execOp s (.apply req src uid) = s)
    ∧ (∀ a : ℚ, decimalFromString req.amount = some a → 0 < a →
        ParseState req.state = none →
        processTransaction req src uid s = .error .invalidState ∧
        execOp s (.apply req src uid) = s) := by
  constructor
  · intro h
    have hres : processTransaction req src uid s = .error .invalidAmount := by
      unfold processTransaction processTransactionWith
      cases hp : decimalFromString req.amount with
      | none => simp
      | some a => simp [h a hp]
    exact ⟨hres, by simp [execOp, hres]⟩
  · intro a hp ha hs
    have hres : processTransaction req src uid s = .error .invalidState := by
      unfold processTransaction processTransactionWith
      simp [hp, not_le.mpr ha, hs]
    exact ⟨hres, by simp [execOp, hres]⟩

theorem C8_validation_before_store_witness :
    (processTransaction ⟨"win", "-5", "K"⟩ .game 1 ⟨[⟨1, 100, 0⟩], [], 1⟩
        = .error .invalidAmount ∧
      execOp ⟨[⟨1, 100, 0⟩], [], 1⟩ (.apply ⟨"win", "-5", "K"⟩ .game 1)
        = ⟨[⟨1, 100, 0⟩], [], 1⟩) ∧
    (processTransaction ⟨"draw", "5", "K"⟩ .game 1 ⟨[⟨1, 100, 0⟩], [], 1⟩
        = .error .invalidState ∧
      execOp ⟨[⟨1, 100, 0⟩], [], 1⟩ (.apply ⟨"draw", "5", "K"⟩ .game 1)
        = ⟨[⟨1, 100, 0⟩], [], 1⟩) :=
  ⟨(C8_validation_before_store ⟨"win", "-5", "K"⟩ .game 1 ⟨[⟨1, 100, 0⟩], [], 1⟩).1
      (by intro a ha
          have h5 : decimalFromString "-5" = some (-5) := by with_unfolding_all decide
          rw [h5] at ha
          injection ha with ha
          rw [← ha]
          decide),
   (C8_validation_before_store ⟨"draw", "5", "K"⟩ .game 1 ⟨[⟨1, 100, 0⟩], [], 1⟩).2
      5 (by with_unfolding_all decide) (by with_unfolding_all decide) (by with_unfolding_all decide)⟩

/-! ## Claim C4: fresh apply arithmetic and the insufficient-balance guard -/

/-- C4: on a fresh apply (no record for the key), the new balance is the
old balance plus the amount for direction win (increase) and the old
balance minus the amount for lost (decrease) — `newBalanceOf` is exactly
the unit's step-3 `switch`.  Whenever that new balance would be
negative, the call fails with `ErrInsufficientBalance` and the committed
store is unchanged (no partial write); otherwise it succeeds, reporting
the new balance, which is also what the store then holds for the
account. -/
theorem C4_fresh_apply_arithmetic (req : TransactionRequest) (src : SourceType)
    (uid : Int) (s : Store) (u : User) (amount : ℚ) (state : State)
    (hamt : decimalFromString req.amount = some amount) (hpos : 0 < amount)
    (hstate : ParseState req.state = some state)
    (ht : getTransaction s req.transactionID = none)
    (hu : getUser s uid = some u) :
    (newBalanceOf state u.balance amount < 0 →
        processTransaction req src uid s = .error .insufficientBalance ∧
        execOp s (.apply req src uid) = s)
    ∧ (0 ≤ newBalanceOf state u.balance amount →
        processTransaction req src uid s
          = .ok (appliedStore req.transactionID src uid state amount
                   (newBalanceOf state u.balance amount) s,
                 ⟨"success", newBalanceOf state u.balance amount⟩) ∧
        getBalance (appliedStore req.transactionID src uid state amount
                      (newBalanceOf state u.balance amount) s) uid
          = .ok (newBalanceOf state u.balance amount)) := by
  constructor
  · intro hneg
    have hres : processTransaction req src uid s = .error .insufficientBalance :=
      processTransactionWith_of_unit_error hamt hpos hstate
        (processTransactionUnit_insufficient ht hu hneg) (by with_unfolding_all decide)
    exact ⟨hres, by simp [execOp, hres]⟩
  · intro hnb
    refine ⟨processTransactionWith_of_unit_ok hamt hpos hstate
      (processTransactionUnit_fresh ht ht hu hnb), ?_⟩
    have hg : getUser (appliedStore req.transactionID src uid state amount
        (newBalanceOf state u.balance amount) s) uid
        = some (updFn uid (newBalanceOf state u.balance amount) u) := by
      rw [getUser_after_upd (s := s) rfl uid, hu]
      rfl
    rw [getBalance_eq hg, updFn_self (getUser_id hu)]

/-! ## Claim C3: the insert-race two-phase recovery -/

/-- C3: consider an `Apply` whose step-1 lookup saw no record for the
key (`sLook`) while a concurrent `Apply` for the same key has committed
by the time the unit's locked statements run (`s` holds a record for the
key), so the ledger insert hits the uniqueness constraint.  Then the
unit aborts with the distinguished `errDuplicateInsertRace` signal — not
the raw duplicate store error — and no write of the unit persists.
After rollback the record is re-read fresh from `s`: if its owner
matches the caller, the call returns the replay status with the fresh
current balance; if not, it fails with the
duplicate-key-owner-mismatch error.  In both cases the committed store
stays exactly `s`. -/
theorem C3_insert_race_recovery (req : TransactionRequest) (src : SourceType)
    (uid : Int) (sLook s : Store) (t : Transaction) (u : User)
    (amount : ℚ) (state : State)
    (hamt : decimalFromString req.amount = some amount) (hpos : 0 < amount)
    (hstate : ParseState req.state = some state)
    (hlook : getTransaction sLook req.transactionID = none)
    (ht : getTransaction s req.transactionID = some t)
    (hu : getUser s uid = some u)
    (hnb : 0 ≤ newBalanceOf state u.balance amount) :
    processTransactionUnit req src uid state amount sLook s
      = .error .duplicateInsertRace
    ∧ (t.userID = uid →
        processTransactionWith req src uid sLook s
          = .ok (s, ⟨"already_processed", u.balance⟩))
    ∧ (t.userID ≠ uid →
        processTransactionWith req src uid sLook s = .error .duplicateTransaction) := by
  have hunit := @processTransactionUnit_race req src uid state amount sLook s u hlook
    (by rw [ht]; rfl) hu hnb
  have hhandler := processTransactionWith_race_handler hamt hpos hstate hunit ht
  exact ⟨hunit, fun howner => hhandler.1 u howner hu, hhandler.2⟩

theorem C3_insert_race_recovery_witness :
    (processTransactionUnit ⟨"win", "10", "K"⟩ .game 1 .win 10
        ⟨[⟨1, 100, 0⟩], [], 1⟩
        ⟨[⟨1, 110, 1⟩], [⟨1, "K", 1, .game, .win, 10, .processed, false⟩], 2⟩
      = .error .duplicateInsertRace
    ∧ processTransactionWith ⟨"win", "10", "K"⟩ .game 1
        ⟨[⟨1, 100, 0⟩], [], 1⟩
        ⟨[⟨1, 110, 1⟩], [⟨1, "K", 1, .game, .win, 10, .processed, false⟩], 2⟩
      = .ok (⟨[⟨1, 110, 1⟩], [⟨1, "K", 1, .game, .win, 10, .processed, false⟩], 2⟩,
             ⟨"already_processed", 110⟩))
    ∧ processTransactionWith ⟨"win", "10", "K"⟩ .game 2
        ⟨[⟨1, 100, 0⟩, ⟨2, 40, 0⟩], [], 1⟩
        ⟨[⟨1, 110, 1⟩, ⟨2, 40, 0⟩], [⟨1, "K", 1, .game, .win, 10, .processed, false⟩], 2⟩
      = .error .duplicateTransaction := by
  have h1 := C3_insert_race_recovery ⟨"win", "10", "K"⟩ .game 1
    ⟨[⟨1, 100, 0⟩], [], 1⟩
    ⟨[⟨1, 110, 1⟩], [⟨1, "K", 1, .game, .win, 10, .processed, false⟩], 2⟩
    ⟨1, "K", 1, .game, .win, 10, .processed, false⟩ ⟨1, 110, 1⟩ 10 .win
    (by with_unfolding_all decide) (by with_unfolding_all decide)
    (by with_unfolding_all decide) (by with_unfolding_all decide)
    (by with_unfolding_all decide) (by with_unfolding_all decide)
    (by with_unfolding_all decide)
  have h2 := C3_insert_race_recovery ⟨"win", "10", "K"⟩ .game 2
    ⟨[⟨1, 100, 0⟩, ⟨2, 40, 0⟩], [], 1⟩
    ⟨[⟨1, 110, 1⟩, ⟨2, 40, 0⟩], [⟨1, "K", 1, .game, .win, 10, .processed, false⟩], 2⟩
    ⟨1, "K", 1, .game, .win, 10, .processed, false⟩ ⟨2, 40, 0⟩ 10 .win
    (by with_unfolding_all decide) (by with_unfolding_all decide)
    (by with_unfolding_all decide) (by with_unfolding_all decide)
    (by with_unfolding_all decide) (by with_unfolding_all decide)
    (by with_unfolding_all decide)
  exact ⟨⟨h1.1, h1.2.1 rfl⟩, h2.2.2 (by with_unfolding_all decide)⟩

/-! ## Claim C6: reversal arithmetic and the negative-balance refusal -/

/-- C6: for a sweep candidate whose row is still `processed` (the
skip-locked probe succeeds), the reversal is `reverseBalanceOf` — win
reversed by subtraction, lost by addition.  If the reversed balance
would be negative the unit commits nothing: the store is returned
unchanged (balance untouched, status still `processed`) and the
candidate counts as skipped, not as an error.  Otherwise the reversed
balance is written and the record's rows with that id end up
`cancelled`. -/
theorem C6_reversal_arithmetic (s : Store) (trans : Transaction) (u : User)
    (hlock : lockTransactionForCancellation s trans.id = true)
    (hu : getUser s trans.userID = some u) :
    (reverseBalanceOf trans.state u.balance trans.amount < 0 →
        cancelOne s trans = (s, false))
    ∧ (0 ≤ reverseBalanceOf trans.state u.balance trans.amount →
        ∃ s', cancelOne s trans = (s', true) ∧
          getBalance s' trans.userID
            = .ok (reverseBalanceOf trans.state u.balance trans.amount) ∧
          ∀ r ∈ s'.transactions, r.id = trans.id → r.status = .cancelled) := by
  obtain ⟨r0, hr0⟩ := Option.isSome_iff_exists.mp (by
    unfold lockTransactionForCancellation at hlock
    exact hlock)
  constructor
  · intro hneg
    cases hstate : trans.state <;>
      (simp only [reverseBalanceOf, hstate] at hneg;
       simp only [cancelOne, lockTransactionForCancellation, hr0, Option.isSome_some,
         if_pos, getUserForUpdate_eq, hu, hstate, if_pos hneg])
  · intro hnb
    have hupd := updateBalance_ok_of
      (reverseBalanceOf trans.state u.balance trans.amount) hu hnb
    refine ⟨cancelledStore s trans (reverseBalanceOf trans.state u.balance trans.amount),
      ?_, ?_, ?_⟩
    · have hcancel : cancelTransactionIfProcessed
          { s with users := s.users.map (updFn trans.userID
              (reverseBalanceOf trans.state u.balance trans.amount)) } trans.id
          = (cancelledStore s trans (reverseBalanceOf trans.state u.balance trans.amount),
             true) := by
        unfold cancelTransactionIfProcessed cancelledStore
        rw [show ({ s with users := s.users.map (updFn trans.userID
              (reverseBalanceOf trans.state u.balance trans.amount)) } : Store).transactions
            = s.transactions from rfl, hr0]
      cases hstate : trans.state <;>
        (simp only [reverseBalanceOf, hstate] at hnb hupd hcancel;
         simp only [cancelOne, lockTransactionForCancellation, hr0, Option.isSome_some,
           if_pos, getUserForUpdate_eq, hu, hstate, if_neg (not_lt.mpr hnb), hupd, hcancel,
           reverseBalanceOf])
    · have hg : getUser
          (cancelledStore s trans (reverseBalanceOf trans.state u.balance trans.amount))
          trans.userID
          = some (updFn trans.userID
              (reverseBalanceOf trans.state u.balance trans.amount) u) := by
        rw [getUser_after_upd (s := s) rfl trans.userID, hu]
        rfl
      rw [getBalance_eq hg, updFn_self (getUser_id hu)]
    · intro r hr hrid
      obtain ⟨r1, hr1, hr1e⟩ := List.mem_map.mp hr
      by_cases hp : r1.status = .processed
      · rw [← hr1e]
        have : r1.id = trans.id := by
          rw [← hrid, ← hr1e]
          exact (cancelFn_id trans.id r1).symm
        simp [cancelFn, this, hp]
      · have hst : r1.status = .cancelled := by
          cases h1 : r1.status
          · exact absurd h1 hp
          · rfl
        rw [← hr1e]
        simp [cancelFn, hst]

theorem C6_reversal_arithmetic_witness :
    (cancelOne ⟨[⟨1, 50, 0⟩], [⟨1, "K", 1, .game, .win, 80, .processed, false⟩], 2⟩
        ⟨1, "K", 1, .game, .win, 80, .processed, false⟩
      = (⟨[⟨1, 50, 0⟩], [⟨1, "K", 1, .game, .win, 80, .processed, false⟩], 2⟩, false))
    ∧ (∃ s', cancelOne ⟨[⟨1, 70, 0⟩], [⟨1, "L", 1, .game, .lost, 30, .processed, false⟩], 2⟩
          ⟨1, "L", 1, .game, .lost, 30, .processed, false⟩ = (s', true) ∧
        getBalance s' 1 = .ok 100 ∧
        ∀ r ∈ s'.transactions, r.id = 1 → r.status = .cancelled) := by
  with_unfolding_all exact
    ⟨(C6_reversal_arithmetic
        ⟨[⟨1, 50, 0⟩], [⟨1, "K", 1, .game, .win, 80, .processed, false⟩], 2⟩
        ⟨1, "K", 1, .game, .win, 80, .processed, false⟩ ⟨1, 50, 0⟩
        (by with_unfolding_all decide) (by with_unfolding_all decide)).1
        (by with_unfolding_all decide),
     (C6_reversal_arithmetic
        ⟨[⟨1, 70, 0⟩], [⟨1, "L", 1, .game, .lost, 30, .processed, false⟩], 2⟩
        ⟨1, "L", 1, .game, .lost, 30, .processed, false⟩ ⟨1, 70, 0⟩
        (by with_unfolding_all decide) (by with_unfolding_all decide)).2
        (by with_unfolding_all decide)⟩

/-! ## Claim C7: the sweep's candidate selection -/

/-- C7: the sweep's candidate query returns at most 10 records, each of
which is a stored record with an odd id and status `processed` (the
spec's applied), in descending id order; and whenever at most 10 stored
records satisfy the predicate, every such record is selected. -/
theorem C7_sweep_selection (s : Store) :
    (getLatestOddProcessedTransactions s 10).length ≤ 10
    ∧ (∀ t ∈ getLatestOddProcessedTransactions s 10,
        t.id % 2 = 1 ∧ t.status = .processed ∧ t ∈ s.transactions)
    ∧ (getLatestOddProcessedTransactions s 10).Sorted (fun a b => b.id ≤ a.id)
    ∧ ((s.transactions.filter
          (fun t => t.id % 2 == 1 && t.status == .processed)).length ≤ 10 →
        ∀ t ∈ s.transactions, t.id % 2 = 1 → t.status = .processed →
          t ∈ getLatestOddProcessedTransactions s 10) := by
  refine ⟨?_, ?_, ?_, ?_⟩
  · unfold getLatestOddProcessedTransactions
    rw [List.length_take]
    exact Nat.min_le_left _ _
  · intro t ht
    have h1 : t ∈ (s.transactions.filter
        (fun t => t.id % 2 == 1 && t.status == .processed)).mergeSort
        (fun a b => decide (b.id ≤ a.id)) :=
      (List.take_sublist _ _).subset ht
    have h2 := List.mem_filter.mp (List.mem_mergeSort.mp h1)
    refine ⟨?_, ?_, h2.1⟩
    · have := h2.2
      simp only [Bool.and_eq_true, beq_iff_eq] at this
      exact this.1
    · have := h2.2
      simp only [Bool.and_eq_true, beq_iff_eq] at this
      exact this.2
  · have hs := @List.sorted_mergeSort Transaction
      (fun a b : Transaction => decide (b.id ≤ a.id))
      (fun a b c hab hbc => by
        simp only [decide_eq_true_eq] at *
        omega)
      (fun a b => by
        simp only [Bool.or_eq_true, decide_eq_true_eq]
        omega)
      (s.transactions.filter (fun t => t.id % 2 == 1 && t.status == .processed))
    have hp : (getLatestOddProcessedTransactions s 10).Pairwise
        (fun a b => decide (b.id ≤ a.id) = true) :=
      List.Pairwise.sublist (List.take_sublist _ _) hs
    exact hp.imp (fun h => by simpa using h)
  · intro hlen t ht hodd hproc
    unfold getLatestOddProcessedTransactions
    rw [List.take_of_length_le]
    · rw [List.mem_mergeSort, List.mem_filter]
      refine ⟨ht, ?_⟩
      simp [hodd, hproc]
    · rw [List.length_mergeSort]
      exact hlen

theorem C7_sweep_selection_witness :
    (getLatestOddProcessedTransactions
        ⟨[], [⟨1, "A", 1, .game, .win, 1, .processed, false⟩,
              ⟨2, "B", 1, .game, .win, 1, .processed, false⟩,
              ⟨3, "C", 1, .game, .win, 1, .cancelled, true⟩,
              ⟨5, "D", 1, .game, .win, 1, .processed, false⟩], 6⟩ 10).length ≤ 10
    ∧ ⟨5, "D", 1, .game, .win, 1, .processed, false⟩ ∈
        getLatestOddProcessedTransactions
          ⟨[], [⟨1, "A", 1, .game, .win, 1, .processed, false⟩,
                ⟨2, "B", 1, .game, .win, 1, .processed, false⟩,
                ⟨3, "C", 1, .game, .win, 1, .cancelled, true⟩,
                ⟨5, "D", 1, .game, .win, 1, .processed, false⟩], 6⟩ 10 :=
  ⟨(C7_sweep_selection
      ⟨[], [⟨1, "A", 1, .game, .win, 1, .processed, false⟩,
            ⟨2, "B", 1, .game, .win, 1, .processed, false⟩,
            ⟨3, "C", 1, .game, .win, 1, .cancelled, true⟩,
            ⟨5, "D", 1, .game, .win, 1, .processed, false⟩], 6⟩).1,
   (C7_sweep_selection
      ⟨[], [⟨1, "A", 1, .game, .win, 1, .processed, false⟩,
            ⟨2, "B", 1, .game, .win, 1, .processed, false⟩,
            ⟨3, "C", 1, .game, .win, 1, .cancelled, true⟩,
            ⟨5, "D", 1, .game, .win, 1, .processed, false⟩], 6⟩).2.2.2
      (by with_unfolding_all decide) _ (by with_unfolding_all decide)
      (by with_unfolding_all decide) (by with_unfolding_all decide)⟩

/-! ## Claim C9: idempotency of N same-key same-owner calls -/

/-- C9: `Apply` calls are serialized by the store's atomic units and the
account row lock; `applyMany` is the resulting serialization of `N`
concurrent calls sharing one idempotency key, owner, direction and
amount.  For every `N ≥ 2` (given a fresh key, an existing account, and
an applicable event), exactly one call succeeds and performs the
mutation; the other `N − 1` observe the replay status, all reporting the
same post-mutation balance; and the final committed store is exactly one
application of the event — the balance changed by the amount exactly
once, and one record was inserted. -/
theorem C9_same_key_idempotency (req : TransactionRequest) (src : SourceType)
    (uid : Int) (s : Store) (u : User) (amount : ℚ) (state : State) (n : Nat)
    (hn : 2 ≤ n)
    (hamt : decimalFromString req.amount = some amount) (hpos : 0 < amount)
    (hstate : ParseState req.state = some state)
    (ht : getTransaction s req.transactionID = none)
    (hu : getUser s uid = some u)
    (hnb : 0 ≤ newBalanceOf state u.balance amount) :
    (applyMany req src uid n s).1
      = ⟨"success", newBalanceOf state u.balance amount⟩ ::
        List.replicate (n - 1)
          ⟨"already_processed", newBalanceOf state u.balance amount⟩
    ∧ (applyMany req src uid n s).2
        = appliedStore req.transactionID src uid state amount
            (newBalanceOf state u.balance amount) s
    ∧ getBalance (applyMany req src uid n s).2 uid
        = .ok (newBalanceOf state u.balance amount) := by
  obtain ⟨m, rfl⟩ : ∃ m, n = m + 1 := ⟨n - 1, by omega⟩
  have hfirst : processTransaction req src uid s
      = .ok (appliedStore req.transactionID src uid state amount
               (newBalanceOf state u.balance amount) s,
             ⟨"success", newBalanceOf state u.balance amount⟩) :=
    processTransactionWith_of_unit_ok hamt hpos hstate
      (processTransactionUnit_fresh ht ht hu hnb)
  have ht' := @getTransaction_appliedStore s req.transactionID src uid state amount
    (newBalanceOf state u.balance amount) ht
  have hu' : getUser (appliedStore req.transactionID src uid state amount
      (newBalanceOf state u.balance amount) s) uid
      = some (updFn uid (newBalanceOf state u.balance amount) u) := by
    rw [getUser_after_upd (s := s) rfl uid, hu]
    rfl
  have hrest := @applyMany_replay req src uid
    (appliedStore req.transactionID src uid state amount
      (newBalanceOf state u.balance amount) s)
    ⟨s.nextId, req.transactionID, uid, src, state, amount, .processed, false⟩
    (updFn uid (newBalanceOf state u.balance amount) u) amount state
    hamt hpos hstate ht' rfl hu' m
  rw [updFn_self (getUser_id hu)] at hrest
  refine ⟨?_, ?_, ?_⟩
  · simp only [applyMany, hfirst, hrest, Nat.add_sub_cancel]
  · simp only [applyMany, hfirst, hrest]
  · simp only [applyMany, hfirst, hrest]
    rw [getBalance_eq hu', updFn_self (getUser_id hu)]

theorem C9_same_key_idempotency_witness :
    (applyMany ⟨"win", "10.00", "K"⟩ .game 1 25 ⟨[⟨1, 100, 0⟩], [], 1⟩).1
      = ⟨"success", 110⟩ :: List.replicate 24 ⟨"already_processed", 110⟩
    ∧ (applyMany ⟨"win", "10.00", "K"⟩ .game 1 25 ⟨[⟨1, 100, 0⟩], [], 1⟩).2
        = appliedStore "K" .game 1 .win 10 110 ⟨[⟨1, 100, 0⟩], [], 1⟩
    ∧ getBalance (applyMany ⟨"win", "10.00", "K"⟩ .game 1 25 ⟨[⟨1, 100, 0⟩], [], 1⟩).2 1
        = .ok 110 := by
  have h := C9_same_key_idempotency ⟨"win", "10.00", "K"⟩ .game 1
    ⟨[⟨1, 100, 0⟩], [], 1⟩ ⟨1, 100, 0⟩ 10 .win 25
    (by omega) (by with_unfolding_all decide) (by with_unfolding_all decide)
    (by with_unfolding_all decide) (by with_unfolding_all decide)
    (by with_unfolding_all decide) (by with_unfolding_all decide)
  with_unfolding_all exact h

theorem C4_fresh_apply_arithmetic_witness :
    ((10.5 : ℚ) ≤ 0 → False) ∧
    (processTransaction ⟨"lost", "10.50", "K"⟩ .game 1 ⟨[⟨1, 5, 0⟩], [], 1⟩
        = .error .insufficientBalance ∧
      execOp ⟨[⟨1, 5, 0⟩], [], 1⟩ (.apply ⟨"lost", "10.50", "K"⟩ .game 1)
        = ⟨[⟨1, 5, 0⟩], [], 1⟩) :=
  ⟨by with_unfolding_all decide,
   (C4_fresh_apply_arithmetic ⟨"lost", "10.50", "K"⟩ .game 1 ⟨[⟨1, 5, 0⟩], [], 1⟩
       ⟨1, 5, 0⟩ (21/2) .lost
       (by with_unfolding_all decide) (by with_unfolding_all decide) (by with_unfolding_all decide) (by with_unfolding_all decide) (by with_unfolding_all decide)).1 (by with_unfolding_all decide)⟩

/-! ## Inversion lemmas for the invariant proof -/

theorem insertTransaction_ok_inv {s : Store} {t : Transaction} {s2 : Store}
    {t2 : Transaction} (h : insertTransaction s t = .ok (s2, t2)) :
    getTransaction s t.transactionID = none ∧
    s2 = { s with
            transactions := s.transactions ++ [{ t with id := s.nextId, cancelledAt := false }],
            nextId := s.nextId + 1 } := by
  unfold insertTransaction at h
  split at h
  · exact absurd h (by simp)
  · next hns =>
      refine ⟨Option.not_isSome_iff_eq_none.mp hns, ?_⟩
      exact (congrArg Prod.fst (Except.ok.inj h)).symm

theorem processTransactionUnit_ok_inv {req : TransactionRequest} {src : SourceType}
    {uid : Int} {state : State} {amount : ℚ} {sLook s : Store}
    {s' : Store} {r : TransactionResponse}
    (h : processTransactionUnit req src uid state amount sLook s = .ok (s', r)) :
    s' = s ∨
    ∃ u, getUser s uid = some u ∧
      getTransaction s req.transactionID = none ∧
      0 ≤ newBalanceOf state u.balance amount ∧
      s' = appliedStore req.transactionID src uid state amount
             (newBalanceOf state u.balance amount) s := by
  simp only [processTransactionUnit] at h
  split at h
  · -- record found: replay or mismatch
    split at h
    · exact absurd h (by simp)
    · split at h
      · exact absurd h (by simp)
      · exact Or.inl (congrArg Prod.fst (Except.ok.inj h)).symm
  · -- not found: the fresh path
    next hlook =>
    split at h
    · exact absurd h (by simp)
    · next user huser =>
        split at h
        · exact absurd h (by simp)
        · next hnneg =>
            split at h
            · exact absurd h (by simp)
            · next s1 hupd =>
                split at h
                · exact absurd h (by simp)
                · exact absurd h (by simp)
                · next s2 t2 hins =>
                    right
                    have hu : getUser s uid = some user := by
                      unfold getUserForUpdate at huser
                      split at huser
                      · exact absurd huser (by simp)
                      · next u0 hu0 => exact (Except.ok.inj huser) ▸ hu0
                    obtain ⟨hb, rfl⟩ := updateBalance_ok_inv hupd
                    obtain ⟨hnone1, hs2⟩ := insertTransaction_ok_inv hins
                    have hnone : getTransaction s req.transactionID = none := hnone1
                    refine ⟨user, hu, hnone, ?_, ?_⟩
                    · cases state <;> simpa [newBalanceOf] using not_lt.mp hnneg
                    · have hs' : s' = s2 := (congrArg Prod.fst (Except.ok.inj h)).symm
                      rw [hs', hs2]
                      cases state <;>
                        simp [appliedStore, newBalanceOf]

theorem processTransaction_ok_inv {req : TransactionRequest} {src : SourceType}
    {uid : Int} {s s' : Store} {r : TransactionResponse}
    (h : processTransaction req src uid s = .ok (s', r)) :
    s' = s ∨
    ∃ u state amount, getUser s uid = some u ∧
      getTransaction s req.transactionID = none ∧
      0 ≤ newBalanceOf state u.balance amount ∧
      s' = appliedStore req.transactionID src uid state amount
             (newBalanceOf state u.balance amount) s := by
  unfold processTransaction processTransactionWith at h
  split at h
  · exact absurd h (by simp)
  · next amount hamt =>
      split at h
      · exact absurd h (by simp)
      · split at h
        · exact absurd h (by simp)
        · next state hstate =>
            split at h
            · next r0 hunit =>
                have hunit' : processTransactionUnit req src uid state amount s s
                    = .ok (s', r) := by
                  rw [hunit]
                  exact congrArg Except.ok (Except.ok.inj h)
                rcases processTransactionUnit_ok_inv hunit' with heq | ⟨u, hu, hnone, hnb, heq⟩
                · exact Or.inl heq
                · exact Or.inr ⟨u, state, amount, hu, hnone, hnb, heq⟩
            · -- the race handler: every successful outcome returns the store unchanged
              split at h
              · exact absurd h (by simp)
              · split at h
                · exact absurd h (by simp)
                · split at h
                  · exact absurd h (by simp)
                  · exact Or.inl (congrArg Prod.fst (Except.ok.inj h)).symm
            · exact absurd h (by simp)

theorem cancelOne_inv (s : Store) (trans : Transaction) :
    cancelOne s trans = (s, false) ∨
    ∃ r0 u,
      s.transactions.find? (fun t => t.id == trans.id && t.status == .processed)
        = some r0 ∧
      getUser s trans.userID = some u ∧
      0 ≤ reverseBalanceOf trans.state u.balance trans.amount ∧
      cancelOne s trans
        = (cancelledStore s trans (reverseBalanceOf trans.state u.balance trans.amount),
           true) := by
  by_cases hlock : lockTransactionForCancellation s trans.id
  · obtain ⟨r0, hr0⟩ : ∃ r0,
        s.transactions.find? (fun t => t.id == trans.id && t.status == .processed)
          = some r0 := by
      apply Option.isSome_iff_exists.mp
      unfold lockTransactionForCancellation at hlock
      exact hlock
    cases hu : getUser s trans.userID with
    | none =>
        left
        simp [cancelOne, hlock, getUserForUpdate_eq, hu]
    | some u =>
        by_cases hneg : reverseBalanceOf trans.state u.balance trans.amount < 0
        · left
          cases hstate : trans.state <;>
            (simp only [reverseBalanceOf, hstate] at hneg;
             simp [cancelOne, hlock, getUserForUpdate_eq, hu, hstate, hneg])
        · right
          have hnn := not_lt.mp hneg
          have hupd := updateBalance_ok_of
            (reverseBalanceOf trans.state u.balance trans.amount) hu hnn
          have hcancel : cancelTransactionIfProcessed
              { s with users := s.users.map (updFn trans.userID
                  (reverseBalanceOf trans.state u.balance trans.amount)) } trans.id
              = (cancelledStore s trans
                   (reverseBalanceOf trans.state u.balance trans.amount), true) := by
            unfold cancelTransactionIfProcessed cancelledStore
            rw [show ({ s with users := s.users.map (updFn trans.userID
                  (reverseBalanceOf trans.state u.balance trans.amount)) } : Store).transactions
                = s.transactions from rfl, hr0]
          refine ⟨r0, u, hr0, ?_, hnn, ?_⟩
          · first
            | exact hu
            | rfl
          · cases hstate : trans.state <;>
              (simp only [reverseBalanceOf, hstate] at hnn hupd hcancel;
               simp only [cancelOne, hlock, if_pos, getUserForUpdate_eq, hu, hstate,
                 if_neg (not_lt.mpr hnn), hupd, hcancel, reverseBalanceOf])
  · left
    simp [cancelOne, hlock]

/-! ## Ledger-sum lemmas -/

theorem ownerSum_nil (uid : Int) : ownerSum uid [] = 0 := rfl

theorem ownerSum_cons (uid : Int) (t : Transaction) (ts : List Transaction) :
    ownerSum uid (t :: ts)
      = (if t.userID = uid then signedAmount t else 0) + ownerSum uid ts := by
  simp [ownerSum]

theorem ownerSum_append_single (uid : Int) (ts : List Transaction) (t : Transaction) :
    ownerSum uid (ts ++ [t])
      = ownerSum uid ts + (if t.userID = uid then signedAmount t else 0) := by
  simp [ownerSum]

theorem signedAmount_of_cancelled {t : Transaction} (h : t.status = .cancelled) :
    signedAmount t = 0 := by
  simp [signedAmount, h]

theorem ownerSum_map_cancelFn {ts : List Transaction} {cid : Nat} {r0 : Transaction}
    (hnd : (ts.map Transaction.id).Nodup) (hmem : r0 ∈ ts) (hid : r0.id = cid)
    (hst : r0.status = .processed) (v : Int) :
    ownerSum v (ts.map (cancelFn cid))
      = ownerSum v ts - (if r0.userID = v then signedAmount r0 else 0) := by
  induction ts with
  | nil => cases hmem
  | cons a tl ih =>
      rw [List.map_cons] at hnd
      have hnd' : (tl.map Transaction.id).Nodup := (List.nodup_cons.mp hnd).2
      have hna : a.id ∉ tl.map Transaction.id := (List.nodup_cons.mp hnd).1
      rcases List.mem_cons.mp hmem with heq | hmem'
      · subst heq
        have htl : tl.map (cancelFn cid) = tl := by
          have hcongr : ∀ t ∈ tl, cancelFn cid t = id t := by
            intro t htmem
            have htne : t.id ≠ cid := by
              intro hc
              apply hna
              have h1 := List.mem_map_of_mem Transaction.id htmem
              rw [hid, ← hc]
              exact h1
            simp [cancelFn, htne]
          rw [List.map_congr_left hcongr, List.map_id]
        rw [List.map_cons, htl, ownerSum_cons, ownerSum_cons]
        have hflip : cancelFn cid r0
            = { r0 with status := .cancelled, cancelledAt := true } := by
          simp [cancelFn, hid, hst]
        rw [hflip]
        by_cases huid : r0.userID = v <;>
          simp [huid, signedAmount]
      · have hane : a.id ≠ cid := by
          intro hc
          apply hna
          have h1 := List.mem_map_of_mem Transaction.id hmem'
          rw [hc, ← hid]
          exact h1
        have ha : cancelFn cid a = a := by
          simp [cancelFn, hane]
        rw [List.map_cons, ha, ownerSum_cons, ownerSum_cons, ih hnd' hmem']
        ring

/-! ## Forall₂ plumbing -/

theorem forall₂_imp_mem {α β : Type} {R S : α → β → Prop} :
    ∀ {l : List α} {l' : List β}, List.Forall₂ R l l' →
      (∀ a ∈ l, ∀ b ∈ l', R a b → S a b) → List.Forall₂ S l l' := by
  intro l l' h
  induction h with
  | nil => intro _; exact List.Forall₂.nil
  | @cons a b l₁ l₂ hr _ ih =>
      intro himp
      exact List.Forall₂.cons
        (himp a (List.mem_cons_self a l₁) b (List.mem_cons_self b l₂) hr)
        (ih fun x hx y hy hxy =>
          himp x (List.mem_cons_of_mem a hx) y (List.mem_cons_of_mem b hy) hxy)

theorem forall₂_mem_left {α β : Type} {R : α → β → Prop} :
    ∀ {l : List α} {l' : List β}, List.Forall₂ R l l' →
      ∀ {a}, a ∈ l → ∃ b ∈ l', R a b := by
  intro l l' h
  induction h with
  | nil => intro a ha; cases ha
  | @cons x y l₁ l₂ hr _ ih =>
      intro a ha
      rcases List.mem_cons.mp ha with rfl | ha'
      · exact ⟨y, List.mem_cons_self y l₂, hr⟩
      · obtain ⟨b, hb, hab⟩ := ih ha'
        exact ⟨b, List.mem_cons_of_mem y hb, hab⟩

theorem userRel_ids_eq {ts : List Transaction} :
    ∀ {l l₀ : List User}, List.Forall₂ (UserRel ts) l l₀ →
      l.map User.id = l₀.map User.id := by
  intro l l₀ h
  induction h with
  | nil => rfl
  | cons hr _ ih => simp [hr.1, ih]

/-! ## Invariant preservation -/

theorem execOp_apply (s : Store) (req : TransactionRequest) (src : SourceType)
    (uid : Int) :
    execOp s (.apply req src uid)
      = match processTransaction req src uid s with
        | .ok r => r.1
        | .error _ => s := rfl

theorem execOp_sweep (s : Store) :
    execOp s .sweep = (processOddRecordCancellation s).1 := rfl

theorem Inv.apply_pres {s₀ s : Store} (hnd₀ : (s₀.users.map User.id).Nodup)
    (hinv : Inv s₀ s) (req : TransactionRequest) (src : SourceType) (uid : Int) :
    Inv s₀ (execOp s (.apply req src uid)) := by
  rw [execOp_apply]
  cases hp : processTransaction req src uid s with
  | error e => exact hinv
  | ok pr =>
      obtain ⟨s', r⟩ := pr
      rcases processTransaction_ok_inv hp with rfl | ⟨u, state, amount, hu, hnone, hnb, rfl⟩
      · exact hinv
      · have hids := userRel_ids_eq hinv.users_rel
        have hndS : (s.users.map User.id).Nodup := by rw [hids]; exact hnd₀
        have huid := getUser_id hu
        constructor
        · show List.Forall₂ _ (s.users.map (updFn uid (newBalanceOf state u.balance amount))) _
          apply List.forall₂_map_left_iff.mpr
          refine forall₂_imp_mem hinv.users_rel ?_
          intro a ha b hb hrel
          by_cases hcase : a.id = uid
          · have haeq : a = u :=
              List.inj_on_of_nodup_map hndS ha (getUser_mem hu) (by rw [hcase, huid])
            refine ⟨?_, ?_, ?_⟩
            · rw [updFn_id]; exact hrel.1
            · rw [updFn_self hcase]; exact hnb
            · rw [updFn_id, updFn_self hcase]
              show ownerSum a.id (s.transactions ++ [_]) = _
              rw [ownerSum_append_single]
              have ht' : (⟨s.nextId, req.transactionID, uid, src, state, amount,
                  .processed, false⟩ : Transaction).userID = a.id := hcase.symm
              rw [if_pos ht']
              have hsum := hrel.2.2
              rw [haeq] at hsum ⊢
              cases state <;>
                (simp only [signedAmount, newBalanceOf];
                 simp;
                 linarith [hsum])
          · refine ⟨by rw [updFn_other hcase]; exact hrel.1,
              by rw [updFn_other hcase]; exact hrel.2.1, ?_⟩
            rw [updFn_other hcase]
            show ownerSum a.id (s.transactions ++ [_]) = _
            rw [ownerSum_append_single]
            have ht' : (⟨s.nextId, req.transactionID, uid, src, state, amount,
                .processed, false⟩ : Transaction).userID ≠ a.id :=
              fun hc => hcase hc.symm
            rw [if_neg ht']
            rw [add_zero]
            exact hrel.2.2
        · show ((s.transactions ++ [_]).map Transaction.id).Nodup
          rw [List.map_append, List.nodup_append]
          refine ⟨hinv.tx_nodup, List.nodup_singleton _, ?_⟩
          intro x hx hx2
          obtain ⟨t1, ht1, hid1⟩ := List.mem_map.mp hx
          have hxe : x = s.nextId := by simpa using hx2
          exact absurd (hid1.trans hxe) (Nat.ne_of_lt (hinv.tx_lt t1 ht1))
        · show ∀ t ∈ s.transactions ++ [_], t.id < s.nextId + 1
          intro t htm
          rcases List.mem_append.mp htm with hmem | hmem
          · exact Nat.lt_trans (hinv.tx_lt t hmem) (Nat.lt_succ_self _)
          · rw [List.mem_singleton.mp hmem]
            exact Nat.lt_succ_self _

theorem Inv.cancelOne_pres {s₀ s : Store} (hnd₀ : (s₀.users.map User.id).Nodup)
    (hinv : Inv s₀ s) {trans : Transaction} (hag : Agrees s trans) :
    Inv s₀ (cancelOne s trans).1 := by
  rcases cancelOne_inv s trans with heq | ⟨r0, u, hr0, hu, hnn, heq⟩
  · rw [heq]; exact hinv
  · rw [heq]
    have hr0mem : r0 ∈ s.transactions := List.mem_of_find?_eq_some hr0
    have hr0p := List.find?_some hr0
    simp only [Bool.and_eq_true, beq_iff_eq] at hr0p
    obtain ⟨hr0id, hr0st⟩ := hr0p
    obtain ⟨hr0uid, hr0state, hr0amount⟩ := hag r0 hr0mem hr0id
    have hids := userRel_ids_eq hinv.users_rel
    have hndS : (s.users.map User.id).Nodup := by rw [hids]; exact hnd₀
    have huid := getUser_id hu
    constructor
    · show List.Forall₂ (UserRel (s.transactions.map (cancelFn trans.id)))
        (s.users.map (updFn trans.userID
          (reverseBalanceOf trans.state u.balance trans.amount))) s₀.users
      apply List.forall₂_map_left_iff.mpr
      refine forall₂_imp_mem hinv.users_rel ?_
      intro a ha b hb hrel
      have hsum := ownerSum_map_cancelFn
        hinv.tx_nodup hr0mem hr0id hr0st a.id
      by_cases hcase : a.id = trans.userID
      · have haeq : a = u :=
          List.inj_on_of_nodup_map hndS ha (getUser_mem hu) (by rw [hcase, huid])
        refine ⟨?_, ?_, ?_⟩
        · rw [updFn_id]; exact hrel.1
        · rw [updFn_self hcase]; exact hnn
        · rw [updFn_id, updFn_self hcase, hsum]
          have hru : r0.userID = a.id := by rw [hr0uid, hcase]
          rw [if_pos hru]
          have hsum0 := hrel.2.2
          rw [haeq] at hsum0 ⊢
          cases hst : trans.state <;>
            (rw [hst] at hr0state;
             simp only [signedAmount, hr0st, hr0state, hr0amount, reverseBalanceOf];
             simp;
             linarith [hsum0])
      · refine ⟨by rw [updFn_other hcase]; exact hrel.1,
          by rw [updFn_other hcase]; exact hrel.2.1, ?_⟩
        rw [updFn_other hcase, hsum]
        have hru : r0.userID ≠ a.id := by
          rw [hr0uid]
          exact fun hc => hcase hc.symm
        rw [if_neg hru, sub_zero]
        exact hrel.2.2
    · show ((s.transactions.map (cancelFn trans.id)).map Transaction.id).Nodup
      rw [List.map_map]
      have : Transaction.id ∘ cancelFn trans.id = Transaction.id :=
        funext (cancelFn_id trans.id)
      rw [this]
      exact hinv.tx_nodup
    · show ∀ t ∈ s.transactions.map (cancelFn trans.id), t.id < s.nextId
      intro t htm
      obtain ⟨t1, ht1, rfl⟩ := List.mem_map.mp htm
      rw [cancelFn_id]
      exact hinv.tx_lt t1 ht1

theorem Agrees.cancelOne_keeps {s : Store} {t' : Transaction} (hag : Agrees s t')
    (trans : Transaction) : Agrees (cancelOne s trans).1 t' := by
  rcases cancelOne_inv s trans with heq | ⟨r0, u, hr0, hu, hnn, heq⟩
  · rw [heq]; exact hag
  · rw [heq]
    intro r hr hid
    obtain ⟨r1, hr1, rfl⟩ := List.mem_map.mp hr
    rw [cancelFn_id] at hid
    obtain ⟨h1, h2, h3⟩ := hag r1 hr1 hid
    exact ⟨by rw [cancelFn_userID]; exact h1,
           by rw [cancelFn_state]; exact h2,
           by rw [cancelFn_amount]; exact h3⟩

theorem Inv.sweepFold_pres {s₀ : Store} (hnd₀ : (s₀.users.map User.id).Nodup) :
    ∀ (cs : List Transaction) (s : Store) (k : Nat),
      Inv s₀ s → (∀ t ∈ cs, Agrees s t) →
      Inv s₀ ((cs.foldl (fun acc trans =>
        let r := cancelOne acc.1 trans
        (r.1, if r.2 then acc.2 + 1 else acc.2)) (s, k)).1) := by
  intro cs
  induction cs with
  | nil => intro s k hinv _; exact hinv
  | cons c cs ih =>
      intro s k hinv hag
      rw [List.foldl_cons]
      exact ih (cancelOne s c).1 (if (cancelOne s c).2 then k + 1 else k)
        (Inv.cancelOne_pres hnd₀ hinv (hag c (List.mem_cons_self c cs)))
        (fun t htm => (hag t (List.mem_cons_of_mem c htm)).cancelOne_keeps c)

theorem Inv.sweep_pres {s₀ s : Store} (hnd₀ : (s₀.users.map User.id).Nodup)
    (hinv : Inv s₀ s) : Inv s₀ (execOp s .sweep) := by
  rw [execOp_sweep]
  unfold processOddRecordCancellation
  apply Inv.sweepFold_pres hnd₀ _ _ _ hinv
  intro t htm
  have hmem : t ∈ s.transactions := by
    have h1 := (List.take_sublist _ _).subset htm
    exact (List.filter_sublist _).subset (List.mem_mergeSort.mp h1)
  intro r hr hid
  have hre : r = t := List.inj_on_of_nodup_map hinv.tx_nodup hr hmem hid
  rw [hre]
  exact ⟨rfl, rfl, rfl⟩

theorem Inv.run_pres {s₀ : Store} (hnd₀ : (s₀.users.map User.id).Nodup) :
    ∀ (ops : List Op) (s : Store), Inv s₀ s → Inv s₀ (run s ops) := by
  intro ops
  induction ops with
  | nil => intro s h; exact h
  | cons op ops ih =>
      intro s h
      show Inv s₀ (run (execOp s op) ops)
      apply ih
      cases op with
      | apply req src uid => exact Inv.apply_pres hnd₀ h req src uid
      | sweep => exact Inv.sweep_pres hnd₀ h

theorem Inv.init {s₀ : Store} (hb : ∀ u ∈ s₀.users, 0 ≤ u.balance)
    (ht : s₀.transactions = []) : Inv s₀ s₀ := by
  constructor
  · apply List.forall₂_same.mpr
    intro u hu
    refine ⟨rfl, hb u hu, ?_⟩
    rw [ht, ownerSum_nil, sub_self]
  · rw [ht]; exact List.nodup_nil
  · rw [ht]; intro t htm; cases htm

/-! ## Claim C2: the round-trip invariant -/

/-- C2 is refuted as literally stated: `ownerSumSpec` renders the
claim's summing rule word for word (increase positive, decrease
negative, a reversed record counted with the opposite sign).  In the
committed state reached from one account at 100 by applying a win of 10
under key "K" (record id 1, odd) and then running the sweep (which
reverses it), that sum is −10, while the owner's balance is back to 100,
so balance minus starting balance is 0 ≠ −10.  A reversed record's net
effect on the balance is zero, not the opposite sign. -/
theorem C2_signed_sum_counterexample :
    run ⟨[⟨1, 100, 0⟩], [], 1⟩ [.apply ⟨"win", "10", "K"⟩ .game 1, .sweep]
      = ⟨[⟨1, 100, 2⟩], [⟨1, "K", 1, .game, .win, 10, .cancelled, true⟩], 2⟩
    ∧ ownerSumSpec 1 [⟨1, "K", 1, .game, .win, 10, .cancelled, true⟩] = -10
    ∧ ((-10 : ℚ) ≠ 100 - 100) := by
  with_unfolding_all decide

/-- C2 (amended): for every committed state reachable by any sequence
of Apply and sweep operations from an initial state with no ledger
records, distinct account ids and non-negative balances, every account
balance is ≥ 0, and for each owner the sum of signed amounts over the
records still `processed` — win/increase positive, lost/decrease
negative, reversed (cancelled) records contributing zero, their effect
having been undone — equals that owner's current balance minus its
starting balance. -/
theorem C2_round_trip_invariant (s₀ : Store)
    (hnd : (s₀.users.map User.id).Nodup)
    (hb : ∀ u ∈ s₀.users, 0 ≤ u.balance)
    (ht : s₀.transactions = [])
    (ops : List Op) :
    (∀ u ∈ (run s₀ ops).users, 0 ≤ u.balance)
    ∧ List.Forall₂ (fun u u₀ => u.id = u₀.id ∧
        ownerSum u.id (run s₀ ops).transactions = u.balance - u₀.balance)
      (run s₀ ops).users s₀.users := by
  have hinv := Inv.run_pres hnd ops s₀ (Inv.init hb ht)
  constructor
  · intro u hu
    obtain ⟨b, _, hrel⟩ := forall₂_mem_left hinv.users_rel hu
    exact hrel.2.1
  · exact hinv.users_rel.imp (fun a b h => ⟨h.1, h.2.2⟩)

theorem C2_round_trip_invariant_witness :
    (∀ u ∈ (run ⟨[⟨1, 100, 0⟩], [], 1⟩
        [.apply ⟨"win", "10", "K"⟩ .game 1,
         .apply ⟨"lost", "30", "L"⟩ .game 1, .sweep]).users, 0 ≤ u.balance)
    ∧ List.Forall₂ (fun (u u₀ : User) => u.id = u₀.id ∧
        ownerSum u.id (run ⟨[⟨1, 100, 0⟩], [], 1⟩
          [.apply ⟨"win", "10", "K"⟩ .game 1,
           .apply ⟨"lost", "30", "L"⟩ .game 1, .sweep]).transactions
          = u.balance - u₀.balance)
      (run ⟨[⟨1, 100, 0⟩], [], 1⟩
        [.apply ⟨"win", "10", "K"⟩ .game 1,
         .apply ⟨"lost", "30", "L"⟩ .game 1, .sweep]).users
      ([⟨1, 100, 0⟩] : List User) :=
  C2_round_trip_invariant ⟨[⟨1, 100, 0⟩], [], 1⟩
    (by with_unfolding_all decide) (by with_unfolding_all decide) rfl
    [.apply ⟨"win", "10", "K"⟩ .game 1,
     .apply ⟨"lost", "30", "L"⟩ .game 1, .sweep]

end TxProc
